import Mathlib

/-!
Verification of the Caption-Express-Agent two-stage AI pipeline
(`src/services/geminiService.ts`, the GPT caption service, and the shared
response-parsing logic). Strings are modelled as lists of characters and
byte streams as lists of naturals; the JavaScript runtime behaviours the
code relies on (regex matching, `JSON.parse`, truthiness coercion of
`x || d`, property access, stable `Array.prototype.sort`) are embedded as
executable Lean functions.
-/

namespace CaptionExpress

/-- Strings are modelled as lists of characters. -/
abbrev Str := List Char

/-- The `\x7b` character (opening curly brace). -/
def lbraceC : Char := Char.ofNat 123

/-- The `\x7d` character (closing curly brace). -/
def rbraceC : Char := Char.ofNat 125

/-- The backtick character. -/
def btickC : Char := Char.ofNat 96

/-- The double-quote character. -/
def quoteC : Char := Char.ofNat 34

/-- The backslash character. -/
def bslashC : Char := Char.ofNat 92

/-- The apostrophe character. -/
def apostC : Char := Char.ofNat 39

/-- JavaScript `\s` whitespace, restricted to the ASCII range relevant here:
space, tab, line feed, carriage return, form feed, vertical tab. -/
def isJsWs (c : Char) : Bool :=
  c = ' ' || c = '\t' || c = '\n' || c = Char.ofNat 13 || c = Char.ofNat 12 || c = Char.ofNat 11

/-- The whitespace accepted by `JSON.parse` between tokens:
space, tab, line feed, carriage return. -/
def isJsonWs (c : Char) : Bool :=
  c = ' ' || c = '\t' || c = '\n' || c = Char.ofNat 13

/-- Skip `JSON.parse` inter-token whitespace. -/
def skipJsonWs (s : Str) : Str := s.dropWhile isJsonWs

/-- JavaScript `String.prototype.trim`. -/
def jsTrim (s : Str) : Str :=
  ((s.dropWhile isJsWs).reverse.dropWhile isJsWs).reverse

/-- JavaScript `String.prototype.toLowerCase`, ASCII fragment. -/
def jsToLower (s : Str) : Str :=
  s.map (fun c => if 'A' ≤ c ∧ c ≤ 'Z' then Char.ofNat (c.toNat + 32) else c)

/-- Index of the first occurrence of `pat` as a contiguous substring of `s`. -/
def findSub (pat : Str) : Str → Option Nat
  | [] => if pat.isPrefixOf ([] : Str) then some 0 else none
  | c :: t =>
    if pat.isPrefixOf (c :: t) then some 0
    else (findSub pat t).map (· + 1)

/-- Index of the first occurrence of character `c` in `s`. -/
def idxOfChar (c : Char) : Str → Option Nat
  | [] => none
  | d :: t => if d = c then some 0 else (idxOfChar c t).map (· + 1)

/-- Index of the last occurrence of character `c` in `s`. -/
def lastIdxOfChar (c : Char) (s : Str) : Option Nat :=
  (idxOfChar c s.reverse).map (fun k => s.length - 1 - k)

/-- The three-backtick fence marker of a markdown code block. -/
def fenceMark : Str := [btickC, btickC, btickC]

/-- The input remaining after the first fence marker, when one exists. -/
def afterFence (s : Str) : Option Str :=
  (findSub fenceMark s).map (fun i => s.drop (i + 3))

/-- Consume the optional `json` language tag of the fence. -/
def dropJsonTag (s : Str) : Str :=
  if ("json".data).isPrefixOf s then s.drop 4 else s

/-- The capture group of `/```(?:json)?\s*([\s\S]*?)```/`: after the opening
fence and optional tag, greedy whitespace, then lazily up to the next fence
marker; `none` when the regex does not match. -/
def fenceGroup (s : Str) : Option Str :=
  match afterFence s with
  | none => none
  | some rest =>
    let body := (dropJsonTag rest).dropWhile isJsWs
    (findSub fenceMark body).map (fun j => body.take j)

/-- Models the fenced-code-block extraction
`response.match(/```(?:json)?\s*([\s\S]*?)```/)` used by both response
parsers: if a fenced block is found, its (lazily matched) contents replace
the working string, otherwise the string is left unchanged. -/
def fenceExtract (s : Str) : Str :=
  match fenceGroup s with
  | none => s
  | some g => g

/-- Models `jsonStr.match(/\x7b[\s\S]*\x7d/)`: the greedy match runs from the
first opening brace to the last closing brace; if such a span exists it
replaces the working string, otherwise the string is left unchanged. -/
def objectExtract (s : Str) : Str :=
  match idxOfChar lbraceC s, lastIdxOfChar rbraceC s with
  | some i, some j => if i < j then (s.take (j + 1)).drop i else s
  | some _, none => s
  | none, _ => s

/-- The JSON-text extraction pipeline shared (by duplicated code) between
`parseGeminiResponse`, `parseGPTResponse` and `regenerateSingleCaption`:
strip a markdown fence if present, then crop to the brace-delimited span. -/
def extractJson (response : Str) : Str := objectExtract (fenceExtract response)

/-- Runtime JSON values as produced by `JSON.parse`. Numbers keep their raw
source token (no claim in this development depends on numeric magnitude,
only on zero-ness for truthiness). -/
inductive Json where
  | null : Json
  | bool : Bool → Json
  | num : Str → Json
  | str : Str → Json
  | arr : List Json → Json
  | obj : List (Str × Json) → Json
deriving Repr

/-- Value of a hexadecimal digit. -/
def hexVal (c : Char) : Option Nat :=
  if c.isDigit then some (c.toNat - 48)
  else if 'a' ≤ c ∧ c ≤ 'f' then some (c.toNat - 87)
  else if 'A' ≤ c ∧ c ≤ 'F' then some (c.toNat - 55)
  else none

/-- Parse the body of a JSON string literal (the opening quote already
consumed), returning the decoded characters and the remaining input. -/
def parseStrBody : Nat → Str → Option (Str × Str)
  | 0, _ => none
  | Nat.succ fuel, s =>
    match s with
    | [] => none
    | c :: t =>
      if c = quoteC then some (([] : Str), t)
      else if c = bslashC then
        match t with
        | [] => none
        | e :: t2 =>
          if e = quoteC then (parseStrBody fuel t2).map (fun p => (quoteC :: p.1, p.2))
          else if e = bslashC then (parseStrBody fuel t2).map (fun p => (bslashC :: p.1, p.2))
          else if e = '/' then (parseStrBody fuel t2).map (fun p => ('/' :: p.1, p.2))
          else if e = 'b' then (parseStrBody fuel t2).map (fun p => (Char.ofNat 8 :: p.1, p.2))
          else if e = 'f' then (parseStrBody fuel t2).map (fun p => (Char.ofNat 12 :: p.1, p.2))
          else if e = 'n' then (parseStrBody fuel t2).map (fun p => ('\n' :: p.1, p.2))
          else if e = 'r' then (parseStrBody fuel t2).map (fun p => (Char.ofNat 13 :: p.1, p.2))
          else if e = 't' then (parseStrBody fuel t2).map (fun p => ('\t' :: p.1, p.2))
          else if e = 'u' then
            match t2 with
            | h1 :: h2 :: h3 :: h4 :: t3 =>
              match hexVal h1, hexVal h2, hexVal h3, hexVal h4 with
              | some a, some b, some c3, some d =>
                (parseStrBody fuel t3).map
                  (fun p => (Char.ofNat (a * 4096 + b * 256 + c3 * 16 + d) :: p.1, p.2))
              | _, _, _, _ => none
            | _ => none
          else none
      else if c.toNat < 32 then none
      else (parseStrBody fuel t).map (fun p => (c :: p.1, p.2))

/-- Longest digit prefix and the rest. -/
def takeDigits (s : Str) : Str × Str := (s.takeWhile Char.isDigit, s.dropWhile Char.isDigit)

/-- Parse a JSON number token (strict JSON grammar), returning the raw token
characters and the remaining input. -/
def numToken (s : Str) : Option (Str × Str) :=
  let (sgn, s1) : Str × Str := match s with
    | c :: t => if c = '-' then ([c], t) else ([], c :: t)
    | [] => ([], [])
  match s1 with
  | [] => none
  | c :: t =>
    if ¬ c.isDigit then none
    else
      let (ipart, s2) : Str × Str :=
        if c = '0' then ([c], t)
        else ((c :: t).takeWhile Char.isDigit, (c :: t).dropWhile Char.isDigit)
      let fres : Option (Str × Str) := match s2 with
        | d :: t2 =>
          if d = '.' then
            let (ds, r) := takeDigits t2
            if ds.isEmpty then none else some (d :: ds, r)
          else some ([], d :: t2)
        | [] => some ([], [])
      match fres with
      | none => none
      | some (fpart, s3) =>
        let eres : Option (Str × Str) := match s3 with
          | d :: t3 =>
            if d = 'e' ∨ d = 'E' then
              let (sg, t4) : Str × Str := match t3 with
                | g :: t4 => if g = '+' ∨ g = '-' then ([g], t4) else ([], g :: t4)
                | [] => ([], [])
              let (ds, r) := takeDigits t4
              if ds.isEmpty then none else some (d :: (sg ++ ds), r)
            else some ([], d :: t3)
          | [] => some ([], [])
        match eres with
        | none => none
        | some (epart, s4) => some (sgn ++ ipart ++ fpart ++ epart, s4)

mutual

/-- Parse one JSON value, returning it and the remaining input. -/
def parseVal : Nat → Str → Option (Json × Str)
  | 0, _ => none
  | Nat.succ fuel, s0 =>
    let s := skipJsonWs s0
    match s with
    | [] => none
    | c :: t =>
      if c = quoteC then (parseStrBody (t.length + 1) t).map (fun p => (Json.str p.1, p.2))
      else if c = '[' then
        match skipJsonWs t with
        | d :: t2 =>
          if d = ']' then some (Json.arr [], t2)
          else (parseArrItems fuel (d :: t2)).map (fun p => (Json.arr p.1, p.2))
        | [] => none
      else if c = lbraceC then
        match skipJsonWs t with
        | d :: t2 =>
          if d = rbraceC then some (Json.obj [], t2)
          else (parseObjItems fuel (d :: t2)).map (fun p => (Json.obj p.1, p.2))
        | [] => none
      else if ("null".data).isPrefixOf s then some (Json.null, s.drop 4)
      else if ("true".data).isPrefixOf s then some (Json.bool true, s.drop 4)
      else if ("false".data).isPrefixOf s then some (Json.bool false, s.drop 5)
      else (numToken s).map (fun p => (Json.num p.1, p.2))

/-- Parse one or more comma-separated array elements and the closing bracket. -/
def parseArrItems : Nat → Str → Option (List Json × Str)
  | 0, _ => none
  | Nat.succ fuel, s =>
    match parseVal fuel s with
    | none => none
    | some (v, r) =>
      match skipJsonWs r with
      | d :: r2 =>
        if d = ',' then (parseArrItems fuel r2).map (fun p => (v :: p.1, p.2))
        else if d = ']' then some ([v], r2)
        else none
      | [] => none

/-- Parse one or more comma-separated object members and the closing brace. -/
def parseObjItems : Nat → Str → Option (List (Str × Json) × Str)
  | 0, _ => none
  | Nat.succ fuel, s =>
    match skipJsonWs s with
    | c :: t =>
      if c = quoteC then
        match parseStrBody (t.length + 1) t with
        | none => none
        | some (key, r) =>
          match skipJsonWs r with
          | d :: r2 =>
            if d = ':' then
              match parseVal fuel r2 with
              | none => none
              | some (v, r3) =>
                match skipJsonWs r3 with
                | g :: r4 =>
                  if g = ',' then (parseObjItems fuel r4).map (fun p => ((key, v) :: p.1, p.2))
                  else if g = rbraceC then some ([(key, v)], r4)
                  else none
                | [] => none
            else none
          | [] => none
      else none
    | [] => none

end

/-- Models `JSON.parse`: parse a complete JSON text; trailing non-whitespace makes
the parse fail. -/
def jsonParse (s : Str) : Option Json :=
  match parseVal (2 * s.length + 8) s with
  | some (v, r) => if (skipJsonWs r).isEmpty then some v else none
  | none => none

mutual

/-- Decidable equality on runtime JSON values. -/
def jsonDecEq : (a b : Json) → Decidable (a = b)
  | .null, .null => isTrue rfl
  | .null, .bool _ => isFalse (fun h => Json.noConfusion h)
  | .null, .num _ => isFalse (fun h => Json.noConfusion h)
  | .null, .str _ => isFalse (fun h => Json.noConfusion h)
  | .null, .arr _ => isFalse (fun h => Json.noConfusion h)
  | .null, .obj _ => isFalse (fun h => Json.noConfusion h)
  | .bool _, .null => isFalse (fun h => Json.noConfusion h)
  | .bool x, .bool y =>
    match decEq x y with
    | isTrue h => isTrue (congrArg Json.bool h)
    | isFalse h => isFalse (fun hh => h (Json.bool.inj hh))
  | .bool _, .num _ => isFalse (fun h => Json.noConfusion h)
  | .bool _, .str _ => isFalse (fun h => Json.noConfusion h)
  | .bool _, .arr _ => isFalse (fun h => Json.noConfusion h)
  | .bool _, .obj _ => isFalse (fun h => Json.noConfusion h)
  | .num _, .null => isFalse (fun h => Json.noConfusion h)
  | .num _, .bool _ => isFalse (fun h => Json.noConfusion h)
  | .num x, .num y =>
    match decEq x y with
    | isTrue h => isTrue (congrArg Json.num h)
    | isFalse h => isFalse (fun hh => h (Json.num.inj hh))
  | .num _, .str _ => isFalse (fun h => Json.noConfusion h)
  | .num _, .arr _ => isFalse (fun h => Json.noConfusion h)
  | .num _, .obj _ => isFalse (fun h => Json.noConfusion h)
  | .str _, .null => isFalse (fun h => Json.noConfusion h)
  | .str _, .bool _ => isFalse (fun h => Json.noConfusion h)
  | .str _, .num _ => isFalse (fun h => Json.noConfusion h)
  | .str x, .str y =>
    match decEq x y with
    | isTrue h => isTrue (congrArg Json.str h)
    | isFalse h => isFalse (fun hh => h (Json.str.inj hh))
  | .str _, .arr _ => isFalse (fun h => Json.noConfusion h)
  | .str _, .obj _ => isFalse (fun h => Json.noConfusion h)
  | .arr _, .null => isFalse (fun h => Json.noConfusion h)
  | .arr _, .bool _ => isFalse (fun h => Json.noConfusion h)
  | .arr _, .num _ => isFalse (fun h => Json.noConfusion h)
  | .arr _, .str _ => isFalse (fun h => Json.noConfusion h)
  | .arr xs, .arr ys =>
    match jsonListDecEq xs ys with
    | isTrue h => isTrue (congrArg Json.arr h)
    | isFalse h => isFalse (fun hh => h (Json.arr.inj hh))
  | .arr _, .obj _ => isFalse (fun h => Json.noConfusion h)
  | .obj _, .null => isFalse (fun h => Json.noConfusion h)
  | .obj _, .bool _ => isFalse (fun h => Json.noConfusion h)
  | .obj _, .num _ => isFalse (fun h => Json.noConfusion h)
  | .obj _, .str _ => isFalse (fun h => Json.noConfusion h)
  | .obj _, .arr _ => isFalse (fun h => Json.noConfusion h)
  | .obj xs, .obj ys =>
    match jsonFieldsDecEq xs ys with
    | isTrue h => isTrue (congrArg Json.obj h)
    | isFalse h => isFalse (fun hh => h (Json.obj.inj hh))

/-- Decidable equality on lists of runtime JSON values. -/
def jsonListDecEq : (a b : List Json) → Decidable (a = b)
  | [], [] => isTrue rfl
  | [], _ :: _ => isFalse (fun h => List.noConfusion h)
  | _ :: _, [] => isFalse (fun h => List.noConfusion h)
  | x :: xs, y :: ys =>
    match jsonDecEq x y, jsonListDecEq xs ys with
    | isTrue h1, isTrue h2 => isTrue (by rw [h1, h2])
    | isFalse h1, _ => isFalse (fun hh => h1 (List.cons.inj hh).1)
    | _, isFalse h2 => isFalse (fun hh => h2 (List.cons.inj hh).2)

/-- Decidable equality on JSON object member lists. -/
def jsonFieldsDecEq : (a b : List (Str × Json)) → Decidable (a = b)
  | [], [] => isTrue rfl
  | [], _ :: _ => isFalse (fun h => List.noConfusion h)
  | _ :: _, [] => isFalse (fun h => List.noConfusion h)
  | (k1, v1) :: xs, (k2, v2) :: ys =>
    match decEq k1 k2, jsonDecEq v1 v2, jsonFieldsDecEq xs ys with
    | isTrue h1, isTrue h2, isTrue h3 => isTrue (by rw [h1, h2, h3])
    | isFalse h1, _, _ =>
      isFalse (fun hh => h1 (congrArg (fun p => p.1) (List.cons.inj hh).1))
    | _, isFalse h2, _ =>
      isFalse (fun hh => h2 (congrArg (fun p => p.2) (List.cons.inj hh).1))
    | _, _, isFalse h3 => isFalse (fun hh => h3 (List.cons.inj hh).2)

end

instance : DecidableEq Json := jsonDecEq

/-- Whether the raw token of a JSON number denotes zero (sign and exponent
cannot make a zero mantissa nonzero). -/
def numIsZero (raw : Str) : Bool :=
  let noSign : Str := match raw with
    | c :: t => if c = '-' then t else c :: t
    | [] => []
  (noSign.takeWhile (fun c => c.isDigit || c = '.')).all (fun c => c = '.' || c = '0')

/-- JavaScript truthiness of a `JSON.parse` result: `null`, `false`, `0` and
the empty string are falsy; every other value, including `[]` and `\x7b\x7d`,
is truthy. -/
def jsTruthy : Json → Bool
  | .null => false
  | .bool b => b
  | .num raw => ¬ numIsZero raw
  | .str s => ¬ s.isEmpty
  | .arr _ => true
  | .obj _ => true

/-- JavaScript property access `parsed.k` on a `JSON.parse` result: defined
only on objects (`none` models `undefined`); a duplicated key keeps its last
value, as in a JavaScript object literal. -/
def getProp (j : Json) (k : Str) : Option Json :=
  match j with
  | .obj fields => fields.foldl (fun acc p => if p.1 = k then some p.2 else acc) none
  | _ => none

/-- The JavaScript `a || d` default idiom applied to a possibly-missing
property value: the property wins exactly when it is present and truthy. -/
def jsOrDefault (o : Option Json) (d : Json) : Json :=
  match o with
  | some v => if jsTruthy v then v else d
  | none => d

/-- Whether an optional property value is a JSON array (`Array.isArray`). -/
def isArrProp : Option Json → Bool
  | some (.arr _) => true
  | _ => false

/-- Whether an optional property value is present and truthy. -/
def truthyProp : Option Json → Bool
  | some v => jsTruthy v
  | none => false

/-- The `ContentSummary` value produced by the normalizer. The fields hold
runtime JSON values: the TypeScript interface declares strings, but
`parseGeminiResponse` assigns whatever `JSON.parse` produced, so the runtime
type is the honest model. -/
structure ContentSummary where
  mainIdea : Json
  bulletPoints : List Json
  keywords : List Json
deriving Repr, DecidableEq

/-- Error outcomes of the pipeline, by site. -/
inductive SvcError where
  | validationError : SvcError
  | extractionError : SvcError
  | parseError : SvcError
  | apiError : SvcError
deriving Repr, DecidableEq

/-- Decidable equality of pipeline outcomes. -/
instance exceptDecEq {ε α : Type} [DecidableEq ε] [DecidableEq α] :
    DecidableEq (Except ε α)
  | .error e, .error f =>
    match decEq e f with
    | isTrue h => isTrue (congrArg Except.error h)
    | isFalse h => isFalse (fun hh => h (Except.error.inj hh))
  | .error _, .ok _ => isFalse (fun hh => Except.noConfusion hh)
  | .ok _, .error _ => isFalse (fun hh => Except.noConfusion hh)
  | .ok x, .ok y =>
    match decEq x y with
    | isTrue h => isTrue (congrArg Except.ok h)
    | isFalse h => isFalse (fun hh => h (Except.ok.inj hh))

/-- Default `mainIdea` substituted by `parseGeminiResponse`. -/
def defaultMainIdea : Str := ("Content analyzed successfully".data)

/-- Default bullet point substituted by `parseGeminiResponse`. -/
def defaultBullet : Str := ("Key insight extracted from content".data)

/-- Property keys used by the normalizer. -/
def kMainIdea : Str := ("mainIdea".data)

/-- The `bulletPoints` key. -/
def kBulletPoints : Str := ("bulletPoints".data)

/-- The `keywords` key. -/
def kKeywords : Str := ("keywords".data)

/-- Models `Array.isArray(bulletPoints) ? bulletPoints.slice(0, 5) : [default]`. -/
def pickBullets (o : Option Json) : List Json :=
  match o with
  | some (Json.arr xs) => xs.take 5
  | _ => [Json.str defaultBullet]

/-- Models `Array.isArray(keywords) ? keywords.slice(0, 10) : []`. -/
def pickKeywords (o : Option Json) : List Json :=
  match o with
  | some (Json.arr xs) => xs.take 10
  | _ => []

/-- Models `parseGeminiResponse`: extract JSON from the raw model response, parse
it, and build a `ContentSummary` with per-field defaults; any failure inside
the `try` (unparseable JSON, or the property access on a parsed `null`
throwing) lands in the `catch`, which synthesizes a summary from the first
100 and 200 characters of the raw response. -/
def parseGeminiResponse (response : Str) : ContentSummary :=
  match jsonParse (extractJson response) with
  | some Json.null =>
    { mainIdea := Json.str (response.take 100)
      bulletPoints := [Json.str (response.take 200)]
      keywords := [] }
  | some parsed =>
    { mainIdea := jsOrDefault (getProp parsed kMainIdea) (Json.str defaultMainIdea)
      bulletPoints := pickBullets (getProp parsed kBulletPoints)
      keywords := pickKeywords (getProp parsed kKeywords) }
  | none =>
    { mainIdea := Json.str (response.take 100)
      bulletPoints := [Json.str (response.take 200)]
      keywords := [] }

/-- Sentence-terminator characters of the fallback summarizer. -/
def isTermC (c : Char) : Bool := c = '.' || c = '!' || c = '?'

/-- One step per global match of `/[^.!?]+[.!?]+/g`: each match is a maximal
run of non-terminators followed by a maximal run of terminators. -/
def sentencesGo : Nat → Str → List Str
  | 0, _ => []
  | Nat.succ fuel, s =>
    let s1 := s.dropWhile isTermC
    let w := s1.takeWhile (fun c => ¬ isTermC c)
    let r1 := s1.dropWhile (fun c => ¬ isTermC c)
    let t := r1.takeWhile isTermC
    let r2 := r1.dropWhile isTermC
    if w.isEmpty ∨ t.isEmpty then []
    else (w ++ t) :: sentencesGo fuel r2

/-- Models `text.match(/[^.!?]+[.!?]+/g)`, as a list (empty when the match is null). -/
def sentencesOf (s : Str) : List Str := sentencesGo (s.length + 1) s

/-- Word characters of the JavaScript `\w` class (ASCII). -/
def isWordChar (c : Char) : Bool :=
  ('a' ≤ c ∧ c ≤ 'z') || ('A' ≤ c ∧ c ≤ 'Z') || c.isDigit || c = '_'

/-- Lowercase ASCII letters, the `[a-z]` class. -/
def isLowerAZ (c : Char) : Bool := 'a' ≤ c ∧ c ≤ 'z'

/-- One pass of `/\b[a-z]\x7b4,\x7d\b/g`: a match is a maximal run of
lowercase letters of length at least 4 whose neighbours are not word
characters (the word boundaries). -/
def wordsGo : Nat → Bool → Str → List Str
  | 0, _, _ => []
  | Nat.succ fuel, prevW, s =>
    match s with
    | [] => []
    | c :: t =>
      if isLowerAZ c then
        let run := (c :: t).takeWhile isLowerAZ
        let rest := (c :: t).dropWhile isLowerAZ
        let okEnd : Bool := match rest with
          | [] => true
          | d :: _ => ¬ isWordChar d
        if ¬ prevW ∧ 4 ≤ run.length ∧ okEnd then run :: wordsGo fuel true rest
        else wordsGo fuel true rest
      else wordsGo fuel (isWordChar c) t

/-- Models `text.toLowerCase().match(/\b[a-z]\x7b4,\x7d\b/g)`, as a list. -/
def wordsOf (s : Str) : List Str :=
  wordsGo (s.length + 1) false (jsToLower s)

/-- One step of building the `wordFreq` record: increment an existing entry
in place, or append a new key (JavaScript object insertion order). -/
def bumpWord (acc : List (Str × Nat)) (w : Str) : List (Str × Nat) :=
  if acc.any (fun p => p.1 = w) then
    acc.map (fun p => if p.1 = w then (p.1, p.2 + 1) else p)
  else acc ++ [(w, 1)]

/-- The `wordFreq` record as the ordered entry list that `Object.entries`
returns: keys in first-insertion order with their counts. -/
def wordFreq (ws : List Str) : List (Str × Nat) := ws.foldl bumpWord []

/-- Stable insertion keeping earlier elements first among equal counts. -/
def insertByCount (x : Str × Nat) : List (Str × Nat) → List (Str × Nat)
  | [] => [x]
  | y :: ys => if y.2 ≤ x.2 then x :: y :: ys else y :: insertByCount x ys

/-- Models `entries.sort((a, b) => b[1] - a[1])`: the stable descending sort of
`Array.prototype.sort` (stable per the ECMAScript specification). -/
def sortByCount (l : List (Str × Nat)) : List (Str × Nat) :=
  l.foldr insertByCount []

/-- The keyword computation of `createFallbackSummary`: frequency-count the
tokenized words, sort descending (stable), keep the top five keys. -/
def topKeywords (ws : List Str) : List Str :=
  ((sortByCount (wordFreq ws)).take 5).map (fun p => p.1)

/-- Models `createFallbackSummary`: first three sentences (trimmed) as bullet
points, and the five most frequent length-4-plus lowercase words of the
whole text as keywords. -/
def createFallbackSummary (text : Str) : ContentSummary :=
  let sentences : List Str :=
    let m := sentencesOf text
    if m.isEmpty then [text] else m
  let bulletPoints : List Str := (sentences.take 3).map jsTrim
  let keywords : List Str := topKeywords (wordsOf text)
  { mainIdea :=
      match bulletPoints.head? with
      | some b => if b.isEmpty then Json.str (text.take 100) else Json.str b
      | none => Json.str (text.take 100)
    bulletPoints :=
      if bulletPoints.isEmpty then [Json.str (text.take 200)]
      else bulletPoints.map Json.str
    keywords := keywords.map Json.str }

/-- Printable-ASCII test of the PDF byte scan. -/
def printableByte (b : Nat) : Bool := 32 ≤ b && b ≤ 126

/-- The byte loop of `extractTextFromPDF`: printable bytes extend the
current run; a non-printable byte flushes a run longer than 3 characters
(with a trailing space) or discards it; the run still open when the input
ends is never flushed. -/
def pdfRunsGo : List Nat → Str → Str
  | [], _ => []
  | b :: bs, cur =>
    if printableByte b then pdfRunsGo bs (cur ++ [Char.ofNat b])
    else if 3 < cur.length then cur ++ ' ' :: pdfRunsGo bs []
    else pdfRunsGo bs []

/-- Models `text.replace(/\s+/g, ' ')`: collapse each maximal whitespace run to a
single space. -/
def collapseWsGo : Nat → Str → Str
  | 0, _ => []
  | Nat.succ fuel, s =>
    match s with
    | [] => []
    | c :: t =>
      if isJsWs c then ' ' :: collapseWsGo fuel (t.dropWhile isJsWs)
      else c :: collapseWsGo fuel t

/-- Collapse whitespace runs, with enough fuel for the whole string. -/
def collapseWs (s : Str) : Str := collapseWsGo (s.length + 1) s

/-- The character class kept by `replace(/[^\w\s.,!?;:'"()-]/g, '')`. -/
def keepPdfChar (c : Char) : Bool :=
  isWordChar c || isJsWs c || c = '.' || c = ',' || c = '!' || c = '?' ||
  c = ';' || c = ':' || c = apostC || c = quoteC || c = '(' || c = ')' || c = '-'

/-- The clean-up chain of `extractTextFromPDF`: collapse whitespace, drop
characters outside the safe set, trim. -/
def cleanPdfText (s : Str) : Str := jsTrim ((collapseWs s).filter keepPdfChar)

/-- Models `extractTextFromPDF` on a byte stream: scan printable runs, clean the
joined text, fail when fewer than 50 characters survive, else return the
first 3000 characters. -/
def extractTextFromPDF (bytes : List Nat) : Except SvcError Str :=
  let text := cleanPdfText (pdfRunsGo bytes [])
  if text.length < 50 then Except.error SvcError.extractionError
  else Except.ok (text.take 3000)

/-- The text path of `analyzeContent`: inputs whose trimmed length is below
10 are rejected before the network call (modelled by the oracle `net`) is
consulted. -/
def analyzeContentText (input : Str)
    (net : Str → Except SvcError ContentSummary) : Except SvcError ContentSummary :=
  if (jsTrim input).length < 10 then Except.error SvcError.validationError
  else net input

/-- A caption produced by the generator; as with `ContentSummary`, the
fields hold the runtime JSON values actually assigned. -/
structure CaptionResult where
  id : Str
  caption : Json
  hookLines : List Json
  cta : Json
  hashtags : List Json
deriving Repr, DecidableEq

/-- Property keys used by the generator. -/
def kCaptions : Str := ("captions".data)

/-- The `text` key. -/
def kText : Str := ("text".data)

/-- The `hookLines` key. -/
def kHookLines : Str := ("hookLines".data)

/-- The `cta` key. -/
def kCta : Str := ("cta".data)

/-- The `hashtags` key. -/
def kHashtags : Str := ("hashtags".data)

/-- The hashtag normalization `h.replace(/^#/, '')` applied to every
hashtag by `parseGPTResponse` and `regenerateSingleCaption`: remove one
leading `#` when present, otherwise leave the string unchanged. -/
def normTag (s : Str) : Str :=
  match s with
  | c :: t => if c = '#' then t else c :: t
  | [] => []

/-- Apply `h.replace(/^#/, '')` to one array entry: only strings have a
`replace` method, so any non-string entry throws (`none`). -/
def stripHashtag : Json → Option Json
  | .str s => some (.str (normTag s))
  | _ => none

/-- Decimal representation of a natural number. -/
def natStr (n : Nat) : Str := (Nat.repr n).data

/-- Build one `CaptionResult` from the `index`-th entry of the `captions`
array; property access on a `null` entry throws (`none`), and so does
`replace` on a non-string hashtag. -/
def captionOfJson (now idx : Nat) (c : Json) : Option CaptionResult :=
  match c with
  | .null => none
  | c =>
    let tags : Option (List Json) :=
      match getProp c kHashtags with
      | some (.arr xs) => xs.mapM stripHashtag
      | _ => some []
    tags.map (fun hs =>
      { id := ("caption-".data) ++ natStr now ++ '-' :: natStr idx
        caption := jsOrDefault (getProp c kText) (Json.str [])
        hookLines :=
          match getProp c kHookLines with
          | some (.arr xs) => xs
          | _ => []
        cta := jsOrDefault (getProp c kCta) (Json.str [])
        hashtags := hs })

/-- Models `parsed.captions.map(...)` with its running index. -/
def captionsFromJson (now : Nat) : Nat → List Json → Option (List CaptionResult)
  | _, [] => some []
  | i, c :: cs =>
    match captionOfJson now i c with
    | none => none
    | some r => (captionsFromJson now (i + 1) cs).map (fun rs => r :: rs)

/-- Models `parseGPTResponse`: extract and parse the JSON; a parse failure, a
missing/falsy/non-array `captions` property, or a throw while mapping the
entries all land in the `catch`, which rethrows a single parse error.
`now` stands for the `Date.now()` timestamp baked into the ids. -/
def parseGPTResponse (now : Nat) (response : Str) : Except SvcError (List CaptionResult) :=
  match jsonParse (extractJson response) with
  | none => Except.error SvcError.parseError
  | some parsed =>
    match parsed with
    | Json.null => Except.error SvcError.parseError
    | _ =>
      match getProp parsed kCaptions with
      | some (Json.arr cs) =>
        match captionsFromJson now 0 cs with
        | some rs => Except.ok rs
        | none => Except.error SvcError.parseError
      | _ => Except.error SvcError.parseError

/-- Models `generateCaptions` with the network interaction abstracted to its
outcome: a transport/API failure propagates, a successful response body is
fed to `parseGPTResponse`. -/
def generateCaptions (now : Nat) (net : Except SvcError Str) :
    Except SvcError (List CaptionResult) :=
  match net with
  | Except.error e => Except.error e
  | Except.ok content => parseGPTResponse now content

/-- Number of leading `#` characters of a hashtag string. -/
def leadHashes : Str → Nat
  | c :: t => if c = '#' then leadHashes t + 1 else 0
  | [] => 0

/-- Wrap a JSON text in the markdown fence emitted by chat models. -/
def fenceWrap (j : Str) : Str := ("```json\n".data) ++ j ++ ("\n```".data)

/-- Modelled from the spec of claim C5 ("the text remaining after those
sentences"): the suffix of the text after the end of the `n`-th match of
the sentence regex. -/
def restAfterGo : Nat → Nat → Str → Str
  | 0, _, s => s
  | _, 0, s => s
  | Nat.succ fuel, Nat.succ n, s =>
    let s1 := s.dropWhile isTermC
    let w := s1.takeWhile (fun c => ¬ isTermC c)
    let r1 := s1.dropWhile (fun c => ¬ isTermC c)
    let t := r1.takeWhile isTermC
    let r2 := r1.dropWhile isTermC
    if w.isEmpty ∨ t.isEmpty then s
    else restAfterGo fuel n r2

/-- The text remaining after the first `n` sentence matches. -/
def restAfterSentences (n : Nat) (s : Str) : Str := restAfterGo (s.length + 1) n s

/-- Distinct words in first-encountered order. -/
def specDistinct (ws : List Str) : List Str :=
  ws.foldl (fun acc w => if w ∈ acc then acc else acc ++ [w]) []

/-- Modelled from the wording of the spec ("the 5 most frequent lowercase words …
ties broken by first-encountered order"): tally each distinct token,
stable-sort by frequency descending, keep the first five. -/
def specTop5 (ws : List Str) : List Str :=
  ((sortByCount ((specDistinct ws).map (fun w => (w, ws.count w)))).take 5).map (fun p => p.1)

/-- Modelled from the spec of claim C5: keywords drawn only from the text
remaining after the first three sentences. -/
def specC5Keywords (text : Str) : List Str :=
  specTop5 (wordsOf (restAfterSentences 3 text))

/-- The entry list `Object.entries(wordFreq)` should equal, per the spec
reading: distinct words in first-encountered order paired with their counts. -/
def specPairs (P : List Str) : List (Str × Nat) :=
  (specDistinct P).map (fun w => (w, P.count w))

section Theorems

/-- A run still open at the end of the byte stream is never flushed, so a
fully printable stream extracts nothing. -/
lemma pdfRunsGo_all_printable (bytes : List Nat) (cur : Str)
    (h : ∀ b ∈ bytes, printableByte b = true) : pdfRunsGo bytes cur = [] := by
  induction bytes generalizing cur with
  | nil => rfl
  | cons b bs ih =>
    have hb : printableByte b = true := h b (by simp)
    simp only [pdfRunsGo, hb, if_true]
    exact ih _ (fun x hx => h x (by simp [hx]))

/-- Claim C4: for every plain-text input whose trimmed length is less than
10 characters, the text path of `analyzeContent` fails with the validation
error before the network oracle is consulted (the result does not depend on
`net`). -/
theorem c4_short_text_rejected (input : Str)
    (net : Str → Except SvcError ContentSummary)
    (h : (jsTrim input).length < 10) :
    analyzeContentText input net = Except.error SvcError.validationError := by
  unfold analyzeContentText
  simp [h]

/-- Witness for C4: a five-character input is rejected whatever the network
would have answered. -/
theorem c4_short_text_rejected_witness :
    analyzeContentText ("short".data)
      (fun _ => Except.ok { mainIdea := Json.null, bulletPoints := [], keywords := [] })
      = Except.error SvcError.validationError :=
  c4_short_text_rejected ("short".data) _ (by decide)

/-- Claim C6: the hashtag normalization removes exactly one
leading `#` from a tag that has at least one, is the identity on tags with
no leading `#`, and is therefore idempotent on already-stripped tags. -/
theorem c6_hashtag_strip (s : Str) :
    (1 ≤ leadHashes s → leadHashes (normTag s) = leadHashes s - 1) ∧
    (leadHashes s = 0 → normTag s = s) ∧
    (leadHashes s = 0 → normTag (normTag s) = normTag s) := by
  cases s with
  | nil => simp [normTag, leadHashes]
  | cons c t =>
    by_cases hc : c = '#'
    · subst hc
      simp [normTag, leadHashes]
    · simp [normTag, leadHashes, hc]

/-- Witness for C6: `##tag` loses exactly one `#`, and `tag` is untouched. -/
theorem c6_hashtag_strip_witness :
    leadHashes (normTag ("##tag".data)) = leadHashes ("##tag".data) - 1 ∧
    normTag ("tag".data) = ("tag".data) :=
  ⟨(c6_hashtag_strip ("##tag".data)).1 (by decide),
   (c6_hashtag_strip ("tag".data)).2.1 (by decide)⟩

/-- Claim C8: `parseGeminiResponse` is total (it returns a `ContentSummary`
for every input string), and whenever JSON extraction/parsing fails it
synthesizes a summary whose main idea is the first 100 characters of the
raw response and whose single bullet point is the first 200 characters. -/
theorem c8_parse_failure_fallback (response : Str)
    (h : jsonParse (extractJson response) = none) :
    parseGeminiResponse response =
      { mainIdea := Json.str (response.take 100)
        bulletPoints := [Json.str (response.take 200)]
        keywords := ([] : List Json) } := by
  unfold parseGeminiResponse
  rw [h]

/-- Witness for C8: an unparseable response produces the substring-based
fallback summary. -/
theorem c8_parse_failure_fallback_witness :
    parseGeminiResponse ("oops, no json here".data) =
      { mainIdea := Json.str (("oops, no json here".data).take 100)
        bulletPoints := [Json.str (("oops, no json here".data).take 200)]
        keywords := ([] : List Json) } :=
  c8_parse_failure_fallback ("oops, no json here".data) (by decide)

/-- Claim C9: the PDF byte scan only flushes a printable run when a
non-printable byte terminates it, so a stream of printable ASCII bytes only
extracts nothing — whatever its length — and the extraction fails with the
insufficient-text error. -/
theorem c9_printable_stream_extracts_nothing (bytes : List Nat)
    (h : ∀ b ∈ bytes, 32 ≤ b ∧ b ≤ 126) :
    (∀ cur : Str, pdfRunsGo [] cur = []) ∧
    pdfRunsGo bytes ([] : Str) = [] ∧
    extractTextFromPDF bytes = Except.error SvcError.extractionError := by
  refine ⟨fun _ => rfl, ?_⟩
  have hruns : pdfRunsGo bytes ([] : Str) = [] := by
    apply pdfRunsGo_all_printable
    intro b hb
    have := h b hb
    simp [printableByte]
    omega
  refine ⟨hruns, ?_⟩
  unfold extractTextFromPDF
  rw [hruns]
  rfl

/-- Witness for C9: eighty `a` bytes extract nothing and fail. -/
theorem c9_printable_stream_witness :
    pdfRunsGo (List.replicate 80 97) ([] : Str) = [] ∧
    extractTextFromPDF (List.replicate 80 97) = Except.error SvcError.extractionError :=
  (c9_printable_stream_extracts_nothing (List.replicate 80 97) (by decide)).2

/-- Claim C2: every `ContentSummary` built by `parseGeminiResponse` or by
the local fallback summarizer has at most 5 bullet points and at most 10
keywords, whatever the remote model returned. -/
theorem c2_summary_bounds (response text : Str) :
    (parseGeminiResponse response).bulletPoints.length ≤ 5 ∧
    (parseGeminiResponse response).keywords.length ≤ 10 ∧
    (createFallbackSummary text).bulletPoints.length ≤ 5 ∧
    (createFallbackSummary text).keywords.length ≤ 10 := by
  have hb : ∀ o : Option Json, (pickBullets o).length ≤ 5 := by
    intro o
    unfold pickBullets
    split
    · simp [List.length_take]
    · simp
  have hk : ∀ o : Option Json, (pickKeywords o).length ≤ 10 := by
    intro o
    unfold pickKeywords
    split
    · simp [List.length_take]
    · simp
  refine ⟨?_, ?_, ?_, ?_⟩
  · unfold parseGeminiResponse
    split
    · simp
    · exact hb _
    · simp
  · unfold parseGeminiResponse
    split
    · simp
    · exact hk _
    · simp
  · simp only [createFallbackSummary]
    split
    · simp
    · simp [List.length_take]
      split <;> simp [List.length_take]
  · simp only [createFallbackSummary]
    simp [topKeywords, List.length_take]

/-- Claim C3: the PDF extraction path fails with the extraction error
exactly when the cleaned extracted text has fewer than 50 characters, and
otherwise returns that text truncated to its first 3000 characters. -/
theorem c3_pdf_threshold (bytes : List Nat) :
    (extractTextFromPDF bytes = Except.error SvcError.extractionError
      ↔ (cleanPdfText (pdfRunsGo bytes ([] : Str))).length < 50) ∧
    (50 ≤ (cleanPdfText (pdfRunsGo bytes ([] : Str))).length →
      extractTextFromPDF bytes = Except.ok ((cleanPdfText (pdfRunsGo bytes ([] : Str))).take 3000)) := by
  simp only [extractTextFromPDF]
  split
  case isTrue h =>
    exact ⟨⟨fun _ => h, fun _ => rfl⟩, fun hc => absurd hc (by omega)⟩
  case isFalse h =>
    refine ⟨⟨fun hh => Except.noConfusion hh, fun hh => absurd hh h⟩, fun _ => rfl⟩

/-- Witness for C3: sixty printable bytes terminated by a line feed survive
cleaning with 60 characters, so extraction succeeds with that text. -/
theorem c3_pdf_threshold_witness :
    extractTextFromPDF (List.replicate 60 97 ++ [10]) =
      Except.ok ((cleanPdfText (pdfRunsGo (List.replicate 60 97 ++ [10]) ([] : Str))).take 3000) :=
  (c3_pdf_threshold (List.replicate 60 97 ++ [10])).2 (by decide)

/-- Mapping the `captions` entries preserves their number. -/
lemma captionsFromJson_length (now : Nat) (cs : List Json) :
    ∀ (i : Nat) (rs : List CaptionResult),
      captionsFromJson now i cs = some rs → rs.length = cs.length := by
  induction cs with
  | nil =>
    intro i rs h
    simp only [captionsFromJson, Option.some.injEq] at h
    subst h
    rfl
  | cons c cs ih =>
    intro i rs h
    simp only [captionsFromJson] at h
    rcases hc : captionOfJson now i c with _ | r
    · rw [hc] at h
      exact Option.noConfusion h
    · rw [hc] at h
      rcases hm : captionsFromJson now (i + 1) cs with _ | rs2
      · rw [hm] at h
        exact Option.noConfusion h
      · rw [hm] at h
        have h2 : r :: rs2 = rs := by simpa using h
        rw [h2.symm]
        simp [ih (i + 1) rs2 hm]

/-- The response accepted for the counterexample of claim C1: a well-formed
object whose `captions` array is empty. -/
def c1BadResponse : Str := (("\x7b\"captions\": []\x7d").data)

/-- Counterexample to claim C1 as stated: this response is accepted by
`parseGPTResponse` (it is a parseable JSON object with a `captions` array),
yet the call returns 0 results, not 3. -/
theorem c1_not_always_three :
    parseGPTResponse 0 c1BadResponse = Except.ok [] ∧
    ¬ ∃ rs : List CaptionResult,
        parseGPTResponse 0 c1BadResponse = Except.ok rs ∧ rs.length = 3 := by
  have h0 : parseGPTResponse 0 c1BadResponse = Except.ok [] := by rfl
  refine ⟨h0, ?_⟩
  rintro ⟨rs, h1, h2⟩
  rw [h0] at h1
  injection h1 with h3
  rw [h3.symm] at h2
  exact absurd h2 (by decide)

/-- Claim C1 (amended): for every accepted response — a parseable JSON
object with a `captions` array whose entries survive the mapping —
`generateCaptions` returns exactly as many ordered `CaptionResult` entries
as the `captions` array of the model contains (3 only when the model returned
3). -/
theorem c1_caption_count (now : Nat) (response : Str) (parsed : Json)
    (cs : List Json) (rs : List CaptionResult)
    (hp : jsonParse (extractJson response) = some parsed)
    (hc : getProp parsed kCaptions = some (Json.arr cs))
    (hm : captionsFromJson now 0 cs = some rs) :
    generateCaptions now (Except.ok response) = Except.ok rs ∧
    rs.length = cs.length := by
  refine ⟨?_, captionsFromJson_length now cs 0 rs hm⟩
  show parseGPTResponse now response = Except.ok rs
  unfold parseGPTResponse
  rw [hp]
  cases parsed with
  | null => simp [getProp] at hc
  | bool b => simp [getProp] at hc
  | num x => simp [getProp] at hc
  | str x => simp [getProp] at hc
  | arr xs => simp [getProp] at hc
  | obj fields =>
    simp only [hc, hm]

/-- The two-caption response instantiating the amended theorem of C1. -/
def c1TwoResponse : Str := (("\x7b\"captions\":[\x7b\x7d,\x7b\x7d]\x7d").data)

/-- The results `parseGPTResponse` builds for `c1TwoResponse` at time 0. -/
def c1TwoResults : List CaptionResult :=
  [{ id := ("caption-0-0".data), caption := Json.str [], hookLines := [],
     cta := Json.str [], hashtags := [] },
   { id := ("caption-0-1".data), caption := Json.str [], hookLines := [],
     cta := Json.str [], hashtags := [] }]

/-- Witness for C1 (amended): a response whose `captions` array has two
entries yields exactly two results. -/
theorem c1_caption_count_witness :
    generateCaptions 0 (Except.ok c1TwoResponse) = Except.ok c1TwoResults ∧
    c1TwoResults.length = ([Json.obj [], Json.obj []] : List Json).length :=
  c1_caption_count 0 c1TwoResponse
    (Json.obj [(kCaptions, Json.arr [Json.obj [], Json.obj []])])
    [Json.obj [], Json.obj []] c1TwoResults (by decide) (by decide) (by decide)

/-- The response for the counterexample of claim C10: `mainIdea` is present but
has the wrong type (a number). -/
def c10BadResponse : Str := (("\x7b\"mainIdea\":5\x7d").data)

/-- Counterexample to claim C10 as stated: a wrong-typed but truthy
`mainIdea` is passed through unchanged instead of being replaced by the
default string. -/
theorem c10_wrong_type_kept :
    (parseGeminiResponse c10BadResponse).mainIdea = Json.num ['5'] ∧
    (parseGeminiResponse c10BadResponse).mainIdea ≠ Json.str defaultMainIdea := by
  constructor
  · rfl
  · decide

/-- Claim C10 (amended): when the response parses to a non-null JSON value,
`parseGeminiResponse` substitutes the default `mainIdea` exactly when the
field is missing or falsy, keeps any present truthy `mainIdea` (of whatever
type) unchanged, and substitutes the default bullet list and the empty
keyword list exactly when those fields are not arrays; no branch throws or
falls back to the substring-based terminal summary. -/
theorem c10_field_defaults (response : Str) (parsed : Json)
    (hp : jsonParse (extractJson response) = some parsed)
    (hn : parsed ≠ Json.null) :
    (truthyProp (getProp parsed kMainIdea) = false →
      (parseGeminiResponse response).mainIdea = Json.str defaultMainIdea) ∧
    (∀ v, getProp parsed kMainIdea = some v → jsTruthy v = true →
      (parseGeminiResponse response).mainIdea = v) ∧
    (isArrProp (getProp parsed kBulletPoints) = false →
      (parseGeminiResponse response).bulletPoints = [Json.str defaultBullet]) ∧
    (isArrProp (getProp parsed kKeywords) = false →
      (parseGeminiResponse response).keywords = []) := by
  have hred : parseGeminiResponse response =
      { mainIdea := jsOrDefault (getProp parsed kMainIdea) (Json.str defaultMainIdea)
        bulletPoints := pickBullets (getProp parsed kBulletPoints)
        keywords := pickKeywords (getProp parsed kKeywords) } := by
    unfold parseGeminiResponse
    rw [hp]
    cases parsed with
    | null => exact absurd rfl hn
    | bool b => rfl
    | num x => rfl
    | str x => rfl
    | arr xs => rfl
    | obj fields => rfl
  rw [hred]
  refine ⟨?_, ?_, ?_, ?_⟩
  · intro h
    rcases hg : getProp parsed kMainIdea with _ | v
    · rfl
    · rw [hg] at h
      simp only [truthyProp] at h
      simp [jsOrDefault, h]
  · intro v hv ht
    simp [jsOrDefault, hv, ht]
  · intro h
    rcases hg : getProp parsed kBulletPoints with _ | v
    · rfl
    · rw [hg] at h
      cases v <;> simp_all [isArrProp, pickBullets]
  · intro h
    rcases hg : getProp parsed kKeywords with _ | v
    · rfl
    · rw [hg] at h
      cases v <;> simp_all [isArrProp, pickKeywords]

/-- The response instantiating the amended theorem of C10: `mainIdea` missing,
`bulletPoints` a number, `keywords` missing. -/
def c10DefaultsResponse : Str := (("\x7b\"bulletPoints\":3\x7d").data)

/-- Witness for C10 (amended): on `c10DefaultsResponse` every field falls
back to its per-field default. -/
theorem c10_field_defaults_witness :
    (parseGeminiResponse c10DefaultsResponse).mainIdea = Json.str defaultMainIdea ∧
    (parseGeminiResponse c10DefaultsResponse).bulletPoints = [Json.str defaultBullet] ∧
    (parseGeminiResponse c10DefaultsResponse).keywords = [] := by
  have h := c10_field_defaults c10DefaultsResponse
    (Json.obj [(kBulletPoints, Json.num ['3'])]) (by decide)
    (fun hh => Json.noConfusion hh)
  exact ⟨h.1 (by decide), h.2.2.1 (by decide), h.2.2.2 (by decide)⟩

/-- Membership in the distinct-words fold. -/
lemma mem_distinctFoldAux (ws : List Str) :
    ∀ (acc : List Str) (x : Str),
      (x ∈ ws.foldl (fun acc w => if w ∈ acc then acc else acc ++ [w]) acc)
        ↔ x ∈ acc ∨ x ∈ ws := by
  induction ws with
  | nil => simp
  | cons w ws ih =>
    intro acc x
    simp only [List.foldl_cons]
    by_cases hw : w ∈ acc
    · rw [if_pos hw, ih]
      constructor
      · rintro (h | h)
        · exact Or.inl h
        · exact Or.inr (List.mem_cons_of_mem w h)
      · rintro (h | h)
        · exact Or.inl h
        · rcases List.mem_cons.mp h with h1 | h2
          · exact Or.inl (h1 ▸ hw)
          · exact Or.inr h2
    · rw [if_neg hw, ih]
      simp only [List.mem_append, List.mem_cons, List.mem_singleton]
      tauto

/-- A word is distinct-listed exactly when it occurs in the input. -/
lemma mem_specDistinct (P : List Str) (x : Str) : x ∈ specDistinct P ↔ x ∈ P := by
  unfold specDistinct
  rw [mem_distinctFoldAux]
  simp

/-- Appending one word steps the distinct list. -/
lemma specDistinct_append_singleton (P : List Str) (w : Str) :
    specDistinct (P ++ [w]) =
      if w ∈ specDistinct P then specDistinct P else specDistinct P ++ [w] := by
  unfold specDistinct
  rw [List.foldl_append]
  rfl

/-- One `bumpWord` step corresponds to tallying one more word. -/
lemma bumpWord_specPairs (P : List Str) (w : Str) :
    bumpWord (specPairs P) w = specPairs (P ++ [w]) := by
  by_cases hw : w ∈ specDistinct P
  · have hany : (specPairs P).any (fun p => p.1 = w) = true := by
      rw [List.any_eq_true]
      exact ⟨(w, P.count w), List.mem_map_of_mem _ hw, by simp⟩
    unfold bumpWord
    rw [hany]
    simp only [if_true]
    unfold specPairs
    rw [specDistinct_append_singleton, if_pos hw, List.map_map]
    apply List.map_congr_left
    intro x hx
    by_cases hxw : x = w
    · subst hxw
      simp [Function.comp, List.count_append]
    · simp [Function.comp, hxw, List.count_append, List.count_cons]
  · have hany : (specPairs P).any (fun p => p.1 = w) = false := by
      rw [List.any_eq_false]
      intro x hx
      simp only [specPairs] at hx
      rcases List.mem_map.mp hx with ⟨y, hy, rfl⟩
      simp only [decide_eq_true_eq]
      exact fun heq => hw (heq ▸ hy)
    unfold bumpWord
    rw [hany]
    simp only [Bool.false_eq_true, if_false]
    unfold specPairs
    rw [specDistinct_append_singleton, if_neg hw, List.map_append]
    congr 1
    · apply List.map_congr_left
      intro x hx
      have hxw : x ≠ w := fun heq => hw (heq ▸ hx)
      simp [hxw, List.count_append, List.count_cons]
    · have hwP : w ∉ P := fun hm => hw ((mem_specDistinct P w).mpr hm)
      simp [List.count_append, List.count_eq_zero.mpr hwP]

/-- The frequency fold started from any tallied prefix tallies the rest. -/
lemma foldl_bump_specPairs (ws : List Str) :
    ∀ P, List.foldl bumpWord (specPairs P) ws = specPairs (P ++ ws) := by
  induction ws with
  | nil =>
    intro P
    simp
  | cons w ws ih =>
    intro P
    simp only [List.foldl_cons]
    rw [bumpWord_specPairs, ih (P ++ [w]), List.append_assoc]
    rfl

/-- The `wordFreq` entry list is: distinct words in first-encountered order
paired with their occurrence counts. -/
lemma wordFreq_eq_specPairs (ws : List Str) : wordFreq ws = specPairs ws := by
  have h := foldl_bump_specPairs ws []
  simpa [wordFreq, specPairs, specDistinct] using h

/-- The keyword computation of the code refines the wording of the spec. -/
lemma topKeywords_eq_specTop5 (ws : List Str) : topKeywords ws = specTop5 ws := by
  unfold topKeywords specTop5
  rw [wordFreq_eq_specPairs]
  rfl

/-- The counterexample text of claim C5: four sentences whose first three carry
the most frequent words. -/
def c5Text : Str := (("apples apples. birds birds. cats cats. dogs.").data)

/-- Counterexample to claim C5 as stated: this text has at least 3
sentences, yet the keywords differ from the reading "tokenized from the
text remaining after those sentences" reading — the code tokenizes the
whole text, so words of the first three sentences dominate. -/
theorem c5_keywords_not_from_remainder :
    3 ≤ (sentencesOf c5Text).length ∧
    (createFallbackSummary c5Text).keywords ≠ (specC5Keywords c5Text).map Json.str := by
  constructor
  · decide
  · decide

/-- Claim C5 (amended): for every text with at least 3 sentence matches,
`createFallbackSummary` returns exactly 3 bullet points equal to the first
3 sentences verbatim (trimmed), and keywords equal to the 5 most frequent
lowercase words of length at least 4 tokenized from the whole input text,
ties broken by first-encountered order. -/
theorem c5_fallback_characterization (text : Str)
    (h3 : 3 ≤ (sentencesOf text).length) :
    (createFallbackSummary text).bulletPoints.length = 3 ∧
    (createFallbackSummary text).bulletPoints
      = ((sentencesOf text).take 3).map (fun s => Json.str (jsTrim s)) ∧
    (createFallbackSummary text).keywords = (specTop5 (wordsOf text)).map Json.str := by
  have hne : (sentencesOf text).isEmpty = false := by
    cases hs : sentencesOf text with
    | nil =>
      rw [hs] at h3
      simp at h3
    | cons a l => rfl
  have hlen3 : ((sentencesOf text).take 3).length = 3 := by
    rw [List.length_take]
    omega
  have hbne : (((sentencesOf text).take 3).map jsTrim).isEmpty = false := by
    cases h : ((sentencesOf text).take 3).map jsTrim with
    | nil =>
      have : (((sentencesOf text).take 3).map jsTrim).length = 0 := by rw [h]; rfl
      rw [List.length_map, hlen3] at this
      exact absurd this (by decide)
    | cons a l => rfl
  simp only [createFallbackSummary, hne, Bool.false_eq_true, if_false, hbne]
  refine ⟨?_, ?_, ?_⟩
  · simp [List.length_take]
    omega
  · rw [List.map_map]
    rfl
  · rw [topKeywords_eq_specTop5]

/-- The text instantiating the amended theorem of C5. -/
def c5GoodText : Str := (("good start. nice flow. fine end. extra tail words here.").data)

/-- Witness for C5 (amended): a four-sentence text yields exactly the first
three trimmed sentences as bullets and the whole-text top-5 keywords. -/
theorem c5_fallback_characterization_witness :
    (createFallbackSummary c5GoodText).bulletPoints.length = 3 ∧
    (createFallbackSummary c5GoodText).bulletPoints
      = ((sentencesOf c5GoodText).take 3).map (fun s => Json.str (jsTrim s)) ∧
    (createFallbackSummary c5GoodText).keywords
      = (specTop5 (wordsOf c5GoodText)).map Json.str :=
  c5_fallback_characterization c5GoodText (by decide)

/-- Unfolding equation of `findSub` on a nonempty haystack. -/
lemma findSub_cons (pat : Str) (c : Char) (t : Str) :
    findSub pat (c :: t) =
      if pat.isPrefixOf (c :: t) = true then some 0
      else (findSub pat t).map (· + 1) := rfl

/-- A string with no fence marker, extended by a newline and a closing
fence, has its first (and only) fence occurrence right after the newline. -/
lemma findSub_fence_concat (j : Str) (h : findSub fenceMark j = none) :
    findSub fenceMark (j ++ '\n' :: fenceMark) = some (j.length + 1) := by
  induction j with
  | nil => decide
  | cons c t ih =>
    have hp : fenceMark.isPrefixOf (c :: t) = false := by
      cases hpp : fenceMark.isPrefixOf (c :: t)
      · rfl
      · rw [findSub_cons, if_pos hpp] at h
        exact Option.noConfusion h
    have ht : findSub fenceMark t = none := by
      rw [findSub_cons, if_neg (by simp [hp])] at h
      exact Option.map_eq_none'.mp h
    have hb : (btickC == '\n') = false := by decide
    have hps : fenceMark.isPrefixOf (c :: (t ++ '\n' :: fenceMark)) = false := by
      rcases t with _ | ⟨c2, t2⟩
      · simp [fenceMark, List.isPrefixOf, hb]
      · rcases t2 with _ | ⟨c3, t3⟩
        · simp [fenceMark, List.isPrefixOf, hb]
        · simp only [fenceMark, List.isPrefixOf, List.cons_append] at hp ⊢
          simpa using hp
    rw [List.cons_append, findSub_cons, if_neg (by simp [hps]), ih ht]
    simp [Nat.add_comm]

/-- Lemma: `fenceExtract` is the identity on a string with no fence marker. -/
lemma fenceExtract_no_fence (j : Str) (h : findSub fenceMark j = none) :
    fenceExtract j = j := by
  unfold fenceExtract fenceGroup afterFence
  rw [h]
  rfl

/-- Lemma: `fenceExtract` on a fence-wrapped fence-free string whose first
character is not whitespace recovers the string plus the newline that the
lazy group captures before the closing fence. -/
lemma fenceExtract_wrap (c0 : Char) (j' : Str)
    (hnf : findSub fenceMark (c0 :: j') = none) (hc0 : isJsWs c0 = false) :
    fenceExtract (fenceWrap (c0 :: j')) = (c0 :: j') ++ ['\n'] := by
  have hwrap : fenceWrap (c0 :: j') =
      btickC :: btickC :: btickC :: 'j' :: 's' :: 'o' :: 'n' :: '\n' ::
        ((c0 :: j') ++ '\n' :: fenceMark) := by
    show ("```json\n".data) ++ (c0 :: j') ++ ("\n```".data) = _
    have hpre : ("```json\n".data) =
        btickC :: btickC :: btickC :: 'j' :: 's' :: 'o' :: 'n' :: '\n' :: [] := by decide
    have hsuf : ("\n```".data) = '\n' :: fenceMark := by decide
    rw [hpre, hsuf]
    simp
  have h0 : findSub fenceMark (fenceWrap (c0 :: j')) = some 0 := by
    rw [hwrap, findSub_cons, if_pos ?hpf]
    case hpf =>
      show fenceMark.isPrefixOf (btickC :: btickC :: btickC :: _) = true
      simp [fenceMark, List.isPrefixOf]
  have ha : afterFence (fenceWrap (c0 :: j')) =
      some ('j' :: 's' :: 'o' :: 'n' :: '\n' :: ((c0 :: j') ++ '\n' :: fenceMark)) := by
    unfold afterFence
    rw [h0, hwrap]
    rfl
  have hdj : dropJsonTag ('j' :: 's' :: 'o' :: 'n' :: '\n' ::
      ((c0 :: j') ++ '\n' :: fenceMark)) = '\n' :: ((c0 :: j') ++ '\n' :: fenceMark) := by
    unfold dropJsonTag
    rw [if_pos (by simp [List.isPrefixOf])]
    rfl
  have hdw : List.dropWhile isJsWs ('\n' :: ((c0 :: j') ++ '\n' :: fenceMark))
      = (c0 :: j') ++ '\n' :: fenceMark := by
    rw [List.dropWhile_cons_of_pos (by decide), List.cons_append,
      List.dropWhile_cons_of_neg (by simp [hc0])]
  have hg : fenceGroup (fenceWrap (c0 :: j')) = some ((c0 :: j') ++ ['\n']) := by
    unfold fenceGroup
    rw [ha]
    simp only [hdj, hdw]
    rw [findSub_fence_concat (c0 :: j') hnf]
    have hsplit : (c0 :: j') ++ '\n' :: fenceMark = ((c0 :: j') ++ ['\n']) ++ fenceMark := by
      simp
    rw [Option.map_some', hsplit, List.take_left' (by simp)]
  unfold fenceExtract
  rw [hg]

/-- Lemma: `objectExtract` is the identity on a brace-delimited string. -/
lemma objectExtract_shape (mid : Str) :
    objectExtract (lbraceC :: mid ++ [rbraceC]) = lbraceC :: mid ++ [rbraceC] := by
  have h1 : idxOfChar lbraceC (lbraceC :: mid ++ [rbraceC]) = some 0 := by
    simp [idxOfChar]
  have h2 : lastIdxOfChar rbraceC (lbraceC :: mid ++ [rbraceC]) = some (mid.length + 1) := by
    unfold lastIdxOfChar
    have hr : (lbraceC :: mid ++ [rbraceC]).reverse = rbraceC :: (mid.reverse ++ [lbraceC]) := by
      simp
    rw [hr]
    simp [idxOfChar]
  unfold objectExtract
  simp only [h1, h2]
  rw [if_pos (Nat.succ_pos mid.length), List.drop_zero]
  apply List.take_of_length_le
  simp

/-- Lemma: `objectExtract` drops a trailing newline after the closing brace. -/
lemma objectExtract_shape_newline (mid : Str) :
    objectExtract ((lbraceC :: mid ++ [rbraceC]) ++ ['\n']) = lbraceC :: mid ++ [rbraceC] := by
  have h1 : idxOfChar lbraceC ((lbraceC :: mid ++ [rbraceC]) ++ ['\n']) = some 0 := by
    simp [idxOfChar]
  have h2 : lastIdxOfChar rbraceC ((lbraceC :: mid ++ [rbraceC]) ++ ['\n'])
      = some (mid.length + 1) := by
    unfold lastIdxOfChar
    have hr : ((lbraceC :: mid ++ [rbraceC]) ++ ['\n']).reverse
        = '\n' :: rbraceC :: (mid.reverse ++ [lbraceC]) := by
      simp
    rw [hr]
    have hnb : ¬ ('\n' = rbraceC) := by decide
    simp [idxOfChar, hnb]
  unfold objectExtract
  simp only [h1, h2]
  rw [if_pos (Nat.succ_pos mid.length), List.drop_zero]
  have hre : (lbraceC :: mid ++ [rbraceC]) ++ ['\n']
      = (lbraceC :: mid ++ [rbraceC]) ++ ['\n'] := rfl
  exact List.take_left' (by simp)

/-- The extraction pipeline recovers a brace-delimited fence-free JSON text
identically with and without the markdown fence. -/
lemma extractJson_wrap (mid : Str)
    (hnf : findSub fenceMark (lbraceC :: mid ++ [rbraceC]) = none) :
    extractJson (fenceWrap (lbraceC :: mid ++ [rbraceC])) = lbraceC :: mid ++ [rbraceC] := by
  have hsh : lbraceC :: mid ++ [rbraceC] = lbraceC :: (mid ++ [rbraceC]) :=
    List.cons_append lbraceC mid [rbraceC]
  have hob := objectExtract_shape_newline mid
  rw [hsh] at hnf hob ⊢
  unfold extractJson
  rw [fenceExtract_wrap lbraceC (mid ++ [rbraceC]) hnf (by decide)]
  exact hob

/-- The extraction pipeline is the identity on the bare JSON text. -/
lemma extractJson_bare (mid : Str)
    (hnf : findSub fenceMark (lbraceC :: mid ++ [rbraceC]) = none) :
    extractJson (lbraceC :: mid ++ [rbraceC]) = lbraceC :: mid ++ [rbraceC] := by
  unfold extractJson
  rw [fenceExtract_no_fence _ hnf]
  exact objectExtract_shape mid

/-- The normalizer-shaped JSON text for the counterexample of C7, with a fence
marker inside a string value. -/
def c7BadJson : Str :=
  (("\x7b\"mainIdea\":\"x``` oops\",\"bulletPoints\":[\"a\"],\"keywords\":[]\x7d").data)

/-- The generator-shaped JSON text for the counterexample of C7. -/
def c7BadJsonG : Str :=
  (("\x7b\"captions\":[\x7b\"text\":\"x``` y\"\x7d]\x7d").data)

/-- Counterexample to claim C7 as stated: these are valid JSON object texts
of the expected shapes, yet wrapping them in a fenced code block changes
the parse result for both parsers — the lazy fence regex cuts the block at
the first fence marker inside the JSON. -/
theorem c7_fence_inside_json_breaks :
    (jsonParse c7BadJson).isSome = true ∧
    parseGeminiResponse (fenceWrap c7BadJson) ≠ parseGeminiResponse c7BadJson ∧
    (jsonParse c7BadJsonG).isSome = true ∧
    parseGPTResponse 0 (fenceWrap c7BadJsonG) ≠ parseGPTResponse 0 c7BadJsonG := by
  refine ⟨by decide, by decide, by decide, by decide⟩

/-- Claim C7 (amended): for every JSON object text that contains no ```
fence marker (and runs from its opening to its closing brace), parsing the
response consisting of that JSON wrapped in a fenced code block yields the
same structured result as parsing the bare JSON, for both the normalizer and the generator response parsers. -/
theorem c7_fencing_transparent (mid : Str) (fs : List (Str × Json)) (now : Nat)
    (hnf : findSub fenceMark (lbraceC :: mid ++ [rbraceC]) = none)
    (hp : jsonParse (lbraceC :: mid ++ [rbraceC]) = some (Json.obj fs)) :
    parseGeminiResponse (fenceWrap (lbraceC :: mid ++ [rbraceC]))
      = parseGeminiResponse (lbraceC :: mid ++ [rbraceC]) ∧
    parseGPTResponse now (fenceWrap (lbraceC :: mid ++ [rbraceC]))
      = parseGPTResponse now (lbraceC :: mid ++ [rbraceC]) := by
  have he1 := extractJson_wrap mid hnf
  have he2 := extractJson_bare mid hnf
  constructor
  · unfold parseGeminiResponse
    rw [he1, he2, hp]
  · unfold parseGPTResponse
    rw [he1, he2]

/-- Witness for C7 (amended): the empty JSON object parses identically
fenced and bare, for both parsers. -/
theorem c7_fencing_transparent_witness :
    parseGeminiResponse (fenceWrap (lbraceC :: [] ++ [rbraceC]))
      = parseGeminiResponse (lbraceC :: [] ++ [rbraceC]) ∧
    parseGPTResponse 0 (fenceWrap (lbraceC :: [] ++ [rbraceC]))
      = parseGPTResponse 0 (lbraceC :: [] ++ [rbraceC]) :=
  c7_fencing_transparent [] [] 0 (by decide) (by decide)

end Theorems

end CaptionExpress
